import Mathlib

/-!
Shallow embedding of the core task-engine logic of the Smart Todo CLI
(Go sources: `taskdata` package, and the `cmd` package's list / mark /
delete views).  Go strings are modelled as Lean `String` (operated on via
their character lists, ASCII-faithful), Go `int` as `Int` (counts as
`Nat`), Go `time.Time` instants as absolute seconds built from a civil
date (`CivilDate`) plus an offset within the day (`GoTime`); all times
are taken in one fixed location with no DST, as the program uses a single
local clock.  Fallible Go functions that return `error` are modelled with
`Bool` / `Option` results (`true` / `some` = nil error).
-/

namespace Todo

/-! ## Data model (`taskdata/task.go`) -/

structure Task where
  ID : Int
  Description : String
  DueDate : String
  Priority : String
  Completed : Bool
deriving DecidableEq, Repr

structure TaskStore where
  Tasks : List Task
  NextID : Int
deriving DecidableEq, Repr

/-! ## String helpers (modelling the `strings` package on ASCII data) -/

/-- Go `strings.ToLower`, character-wise (ASCII). -/
def lowerChars (l : List Char) : List Char := l.map Char.toLower

/-- Go `strings.ToLower` on a whole string. -/
def lowerStr (s : String) : String := String.mk (lowerChars s.data)

/-- Go `strings.TrimSpace`: drop leading and trailing whitespace. -/
def trimChars (l : List Char) : List Char :=
  ((l.dropWhile Char.isWhitespace).reverse.dropWhile Char.isWhitespace).reverse

/-- Go `strings.ReplaceAll(s, "  ", " ")`: one left-to-right pass replacing
each non-overlapping double space by a single space. -/
def collapseChars : List Char → List Char
  | ' ' :: ' ' :: rest => ' ' :: collapseChars rest
  | c :: rest => c :: collapseChars rest
  | [] => []

/-- Go `strings.HasPrefix(text, pat)`. -/
def startsWithChars : List Char → List Char → Bool
  | _, [] => true
  | [], _ :: _ => false
  | c :: cs, p :: ps => c = p && startsWithChars cs ps

/-- Go `strings.Contains(text, pat)`. -/
def containsChars : List Char → List Char → Bool
  | [], p => startsWithChars [] p
  | c :: rest, p => startsWithChars (c :: rest) p || containsChars rest p

/-- Accumulator for `fieldsChars`; carries the current word reversed. -/
def fieldsAux : List Char → List Char → List (List Char)
  | cur, [] => if cur = [] then [] else [cur.reverse]
  | cur, c :: rest =>
    if c.isWhitespace then
      if cur = [] then fieldsAux [] rest else cur.reverse :: fieldsAux [] rest
    else fieldsAux (c :: cur) rest

/-- Go `strings.Fields`: split around runs of whitespace, no empty fields. -/
def fieldsChars (l : List Char) : List (List Char) := fieldsAux [] l

/-! ## Dates and times

Go `time.Parse("2006-01-02", s)` accepts exactly a `dddd-dd-dd` digit
shape with a valid Gregorian month and day, and yields midnight UTC of
that day.  A parsed date is a `CivilDate`; `dayNumber` is the standard
civil-from-days day count (days since 1970-01-01), so `dateSec` is the
Unix time of the date's midnight.  A reference time (`time.Now()`) is a
`GoTime`: its calendar date plus the elapsed seconds within that day. -/

structure CivilDate where
  year : Int
  month : Int
  day : Int
deriving DecidableEq, Repr

structure GoTime where
  date : CivilDate
  ofs : Int
deriving DecidableEq, Repr

def isLeapYear (y : Int) : Bool := y % 4 = 0 && (y % 100 ≠ 0 || y % 400 = 0)

def daysInMonth (y m : Int) : Int :=
  if m = 2 then (if isLeapYear y then 29 else 28)
  else if m = 4 || m = 6 || m = 9 || m = 11 then 30
  else 31

def digitVal (c : Char) : Option Int :=
  if c.isDigit then some ((c.toNat : Int) - 48) else none

/-- Go `time.Parse("2006-01-02", s)` on the character list of `s`:
`none` models a parse error. -/
def parseDateChars : List Char → Option CivilDate
  | [y1, y2, y3, y4, s1, m1, m2, s2, d1, d2] =>
    if s1 = '-' && s2 = '-' then
      match digitVal y1, digitVal y2, digitVal y3, digitVal y4,
            digitVal m1, digitVal m2, digitVal d1, digitVal d2 with
      | some a, some b, some c, some d, some e, some f, some g, some h =>
        let y := a * 1000 + b * 100 + c * 10 + d
        let mo := e * 10 + f
        let da := g * 10 + h
        if 1 ≤ mo && mo ≤ 12 && 1 ≤ da && da ≤ daysInMonth y mo then
          some ⟨y, mo, da⟩
        else none
      | _, _, _, _, _, _, _, _ => none
    else none
  | _ => none

def parseDateStr (s : String) : Option CivilDate := parseDateChars s.data

/-- Day count of a civil date relative to 1970-01-01 (the standard
days-from-civil computation used by Go's `time` package). -/
def dayNumber (dt : CivilDate) : Int :=
  let y := if dt.month ≤ 2 then dt.year - 1 else dt.year
  let era := Int.fdiv y 400
  let yoe := y - era * 400
  let mp := (dt.month + 9) % 12
  let doy := (153 * mp + 2) / 5 + dt.day - 1
  let doe := yoe * 365 + yoe / 4 - yoe / 100 + doy
  era * 146097 + doe - 719468

/-- Unix seconds of the date's midnight (what `time.Parse` returns, and
what `time.Date(y, m, d, 0, 0, 0, 0, loc)` builds). -/
def dateSec (dt : CivilDate) : Int := dayNumber dt * 86400

/-- Unix seconds of the reference instant. -/
def nowSec (now : GoTime) : Int := dateSec now.date + now.ofs

/-! ## Validation and store operations (`taskdata/task.go`) -/

/-- Go `ValidatePriority` (`task.go`): the lower-cased input is compared,
case-sensitively, against the literal list of the source (so the
upper-case entries `"L"`, `"N"`, `"H"` never match).  `true` = nil error. -/
def ValidatePriority (priority : String) : Bool :=
  let p := lowerStr priority
  p = "low" || p = "L" || p = "N" || p = "normal" || p = "H" || p = "high"

/-- Go `ValidateDate` (`task.go`): the empty string is allowed; otherwise the
string must match `^\d{4}-\d{2}-\d{2}$` and parse as a valid date.  The
regex shape check is subsumed by `parseDateStr`, which only accepts that
exact shape.  `true` = nil error. -/
def ValidateDate (date : String) : Bool :=
  if date = "" then true else (parseDateStr date).isSome

/-- Go `(*TaskStore).AddTask`: validates, then appends a task with
`ID = NextID`, lower-cased priority, `Completed = false`, and increments
`NextID`.  Returns `(none, unchanged store)` on a validation error. -/
def AddTask (store : TaskStore) (description dueDate priority : String) :
    Option Task × TaskStore :=
  if !ValidateDate dueDate then (none, store)
  else if !ValidatePriority priority then (none, store)
  else
    let task : Task :=
      { ID := store.NextID, Description := description, DueDate := dueDate,
        Priority := lowerStr priority, Completed := false }
    (some task, { Tasks := store.Tasks ++ [task], NextID := store.NextID + 1 })

/-- Loop of `(*TaskStore).CompleteTask`: set `Completed := true` on the
first task with the given ID; the `Bool` is `true` iff one was found
(nil error). -/
def completeFirstById (id : Int) : List Task → Bool × List Task
  | [] => (false, [])
  | t :: rest =>
    if t.ID = id then (true, { t with Completed := true } :: rest)
    else
      let r := completeFirstById id rest
      (r.1, t :: r.2)

/-- Go `(*TaskStore).CompleteTask` (`task.go`). -/
def CompleteTask (store : TaskStore) (id : Int) : Bool × TaskStore :=
  let r := completeFirstById id store.Tasks
  (r.1, { store with Tasks := r.2 })

/-- Loop of `updateTaskCompletion` (`cmd/mark.go`): set the `Completed`
flag of the first task with the given ID to the target value. -/
def updateFirstById (id : Int) (completed : Bool) : List Task → Bool × List Task
  | [] => (false, [])
  | t :: rest =>
    if t.ID = id then (true, { t with Completed := completed } :: rest)
    else
      let r := updateFirstById id completed rest
      (r.1, t :: r.2)

/-- Go `updateTaskCompletion` (`cmd/mark.go`); `true` = nil error. -/
def updateTaskCompletion (store : TaskStore) (id : Int) (completed : Bool) :
    Bool × TaskStore :=
  let r := updateFirstById id completed store.Tasks
  (r.1, { store with Tasks := r.2 })

/-- Loop of `deleteTaskByID` (`cmd/delete.go`): remove the first task with
the given ID. -/
def removeFirstById (id : Int) : List Task → Bool × List Task
  | [] => (false, [])
  | t :: rest =>
    if t.ID = id then (true, rest)
    else
      let r := removeFirstById id rest
      (r.1, t :: r.2)

/-- Go `deleteTaskByID` (`cmd/delete.go`); `true` iff a task was removed. -/
def deleteTaskByID (store : TaskStore) (id : Int) : Bool × TaskStore :=
  let r := removeFirstById id store.Tasks
  (r.1, { store with Tasks := r.2 })

/-! ## Pure classifiers (`cmd/list.go` = `version.go` part, `cmd/mark.go`,
`cmd/delete.go`) -/

/-- Go `isOverdue` (`cmd/list.go`): pending, parseable due date, and the due
day's midnight lies strictly before the midnight of `now`'s calendar day. -/
def isOverdue (task : Task) (now : GoTime) : Bool :=
  if task.Completed || task.DueDate = "" then false
  else
    match parseDateStr task.DueDate with
    | none => false
    | some d => decide (dateSec d < dateSec now.date)

/-- Go `isTaskOverdue` (`cmd/mark.go`): textually the same computation as
`isOverdue`. -/
def isTaskOverdue (task : Task) (now : GoTime) : Bool :=
  if task.Completed || task.DueDate = "" then false
  else
    match parseDateStr task.DueDate with
    | none => false
    | some d => decide (dateSec d < dateSec now.date)

/-- Go `isDueSoon` (`cmd/list.go`): pending, parseable due date, and the due
midnight is neither before `now` nor after `now.AddDate(0, 0, 3)` (three
calendar days later, i.e. `now + 3*86400` seconds in a DST-free zone). -/
def isDueSoon (task : Task) (now : GoTime) : Bool :=
  if task.Completed || task.DueDate = "" then false
  else
    match parseDateStr task.DueDate with
    | none => false
    | some d =>
      !decide (dateSec d < nowSec now) && !decide (dateSec d > nowSec now + 3 * 86400)

/-- Per-task condition of the loop in `getOverdueTasks` (`cmd/delete.go`):
note it compares the due midnight against the current *instant*, not
against the truncated day. -/
def overdueInstant (task : Task) (now : GoTime) : Bool :=
  if task.Completed || task.DueDate = "" then false
  else
    match parseDateStr task.DueDate with
    | none => false
    | some d => decide (dateSec d < nowSec now)

/-- Go `getOverdueTasks` (`cmd/delete.go`), with `time.Now()` lifted to a
parameter. -/
def getOverdueTasks (tasks : List Task) (now : GoTime) : List Task :=
  tasks.filter (fun t => overdueInstant t now)

/-! ## Health score (`cmd/mark.go`) -/

/-- Go `calculateTaskHealthScore` (`cmd/mark.go`).  All Go `int` inputs are
non-negative counts, so the Go integer division is `Nat` division; the
raw score may go negative and is therefore an `Int`. -/
def calculateTaskHealthScore (total completed overdue highPriorityPending : Nat) : Int :=
  if total = 0 then 100
  else
    let completionBonus : Int := ((completed * 100) / total : Nat)
    let overduePenalty : Int := overdue * 20
    let highPriorityPenalty : Int := highPriorityPending * 10
    let score := completionBonus - overduePenalty - highPriorityPenalty
    if score < 0 then 0
    else if score > 100 then 100
    else score

/-- Completed-task count of the loop in `analyzeTaskPatterns` (`cmd/mark.go`). -/
def countCompleted (tasks : List Task) : Nat := tasks.countP (·.Completed)

/-- Pending-overdue count of the loop in `analyzeTaskPatterns`. -/
def countPendingOverdue (tasks : List Task) (now : GoTime) : Nat :=
  tasks.countP (fun t => !t.Completed && isTaskOverdue t now)

/-- Pending high-priority count of the loop in `analyzeTaskPatterns`. -/
def countPendingHigh (tasks : List Task) : Nat :=
  tasks.countP (fun t => !t.Completed && t.Priority = "high")

/-- The health score `analyzeTaskPatterns` reports for a task collection. -/
def taskHealthScoreOf (tasks : List Task) (now : GoTime) : Int :=
  calculateTaskHealthScore tasks.length (countCompleted tasks)
    (countPendingOverdue tasks now) (countPendingHigh tasks)

/-! ## Duplicate detection and similarity (`cmd/delete.go`) -/

/-- The Go literal `map[string]int{"high": 3, "normal": 2, "low": 1}` used
both by the sort in `filterTasks` and by `shouldKeepExisting`; absent keys
look up as 0. -/
def priorityOrder (p : String) : Nat :=
  if p = "high" then 3 else if p = "normal" then 2 else if p = "low" then 1 else 0

/-- Go `shouldKeepExisting` (`cmd/delete.go`). -/
def shouldKeepExisting (existing fresh : Task) : Bool :=
  if existing.DueDate ≠ "" && fresh.DueDate = "" then true
  else if existing.DueDate = "" && fresh.DueDate ≠ "" then false
  else decide (priorityOrder fresh.Priority ≤ priorityOrder existing.Priority)

/-- The normalisation in `findDuplicateTasks`:
`strings.ReplaceAll(strings.ToLower(strings.TrimSpace(d)), "  ", " ")`. -/
def normalizeDesc (s : String) : String :=
  String.mk (collapseChars (lowerChars (trimChars s.data)))

/-- Lookup in the `seen` map of `findDuplicateTasks` (a Go
`map[string]taskdata.Task`, modelled as an association list). -/
def lookupSeen (key : String) : List (String × Task) → Option Task
  | [] => none
  | (k, v) :: rest => if k = key then some v else lookupSeen key rest

/-- Insertion/overwrite in the `seen` map of `findDuplicateTasks`. -/
def setSeen (key : String) (v : Task) : List (String × Task) → List (String × Task)
  | [] => [(key, v)]
  | (k, w) :: rest =>
    if k = key then (key, v) :: rest else (k, w) :: setSeen key v rest

/-- Loop of `findDuplicateTasks` (`cmd/delete.go`): walk the tasks in
order, skip completed ones, and on a normalized-description collision emit
the loser of `shouldKeepExisting` as a duplicate. -/
def findDuplicateTasksAux : List Task → List (String × Task) → List Task
  | [], _ => []
  | t :: rest, seen =>
    if t.Completed then findDuplicateTasksAux rest seen
    else
      let norm := normalizeDesc t.Description
      match lookupSeen norm seen with
      | some existing =>
        if shouldKeepExisting existing t
        then t :: findDuplicateTasksAux rest seen
        else existing :: findDuplicateTasksAux rest (setSeen norm t seen)
      | none => findDuplicateTasksAux rest (setSeen norm t seen)

/-- Go `findDuplicateTasks` (`cmd/delete.go`). -/
def findDuplicateTasks (tasks : List Task) : List Task :=
  findDuplicateTasksAux tasks []

/-- Go `calculateSimilarityScore` (`cmd/delete.go`): Go `float64` arithmetic
modelled exactly over `Rat` (the computation only produces small exact
rationals: 1, 0.8, and `matches/len * 0.6`). -/
def calculateSimilarityScore (text pat : String) : Rat :=
  let t := lowerChars text.data
  let p := lowerChars pat.data
  if t = p then 1
  else if containsChars t p then 4 / 5
  else
    let words := fieldsChars t
    let patternWords := fieldsChars p
    let m := patternWords.countP
      (fun pw => words.any (fun tw => startsWithChars tw pw || containsChars tw pw))
    if 0 < patternWords.length then (m : Rat) / (patternWords.length : Rat) * (3 / 5)
    else 0

/-! ## The list view's filter and sort (`cmd/list.go`) -/

/-- The `filterOptions` struct of `cmd/list.go`. -/
structure FilterOptions where
  timeFilter : String
  priority : String
  showCompleted : Bool
  showPending : Bool
  showOverdue : Bool
  showDueSoon : Bool
  showNoDate : Bool

/-- Go `isSameDay` (`cmd/list.go`), on already-truncated civil dates. -/
def isSameDay (d1 d2 : CivilDate) : Bool :=
  d1.year = d2.year && d1.month = d2.month && d1.day = d2.day

/-- Go `isInWeekRange` (`cmd/list.go`): the due midnight lies between today's
midnight and six calendar days later. -/
def isInWeekRange (d : CivilDate) (now : GoTime) : Bool :=
  !decide (dateSec d < dateSec now.date)
    && !decide (dateSec d > dateSec now.date + 6 * 86400)

/-- Go `isSameMonth` (`cmd/list.go`). -/
def isSameMonth (d1 d2 : CivilDate) : Bool :=
  d1.year = d2.year && d1.month = d2.month

/-- Go `matchesPriority` (`cmd/list.go`). -/
def matchesPriority (task : Task) (priority : String) : Bool :=
  let p := lowerStr priority
  let q := if p = "h" then "high" else if p = "n" then "normal"
           else if p = "l" then "low" else p
  task.Priority = q

/-- Go `matchesTimeFilter` (`cmd/list.go`); the Go `switch` has cases for
"today", "week" and "month" and a default of `true`. -/
def matchesTimeFilter (task : Task) (timeFilter : String) (now : GoTime) : Bool :=
  if timeFilter = "all" then true
  else if task.DueDate = "" then true
  else
    match parseDateStr task.DueDate with
    | none => false
    | some d =>
      if timeFilter = "today" then isSameDay d now.date
      else if timeFilter = "week" then isInWeekRange d now
      else if timeFilter = "month" then isSameMonth d now.date
      else true

/-- The body of the filter loop in `filterTasks` (`cmd/list.go`): `false`
exactly when one of the `continue` branches fires. -/
def keepTask (opts : FilterOptions) (now : GoTime) (task : Task) : Bool :=
  if opts.showOverdue && !isOverdue task now then false
  else if opts.showDueSoon && !isDueSoon task now then false
  else if opts.showNoDate && !decide (task.DueDate = "") then false
  else if (!opts.showOverdue && !opts.showDueSoon && !opts.showNoDate)
      && !matchesTimeFilter task opts.timeFilter now then false
  else if !decide (opts.priority = "") && !matchesPriority task opts.priority then false
  else if opts.showCompleted && !opts.showPending then task.Completed
  else if opts.showPending && !opts.showCompleted then !task.Completed
  else true

/-- The comparison closure passed to `sort.Slice` in `filterTasks`:
pending before completed, then higher `priorityOrder`, then by due-date
string with dated tasks before undated ones. -/
def taskLess (a b : Task) : Bool :=
  if a.Completed ≠ b.Completed then !a.Completed
  else if priorityOrder a.Priority ≠ priorityOrder b.Priority then
    decide (priorityOrder b.Priority < priorityOrder a.Priority)
  else if a.DueDate ≠ "" ∧ b.DueDate ≠ "" then decide (a.DueDate < b.DueDate)
  else if a.DueDate ≠ "" then true
  else false

/-- The non-strict order induced by `taskLess`: `a` need not come after
`b`. -/
def taskLe (a b : Task) : Prop := taskLess b a = false

instance : DecidableRel taskLe :=
  fun a b => inferInstanceAs (Decidable (taskLess b a = false))

/-- Sort key realising `taskLess` as a lexicographic comparison
(completion rank, inverted priority rank, undated rank, due-date string). -/
def taskKey (t : Task) : Nat ×ₗ (Nat ×ₗ (Nat ×ₗ String)) :=
  toLex ((if t.Completed then 1 else 0 : Nat),
    toLex ((3 - priorityOrder t.Priority : Nat),
      toLex ((if t.DueDate = "" then 1 else 0 : Nat), t.DueDate)))

/-- Go `filterTasks` (`cmd/list.go`), with `time.Now()` lifted to a
parameter: keep the tasks passing the filters, then sort them with
`sort.Slice(..., taskLess)`.  Go's `sort.Slice` is unstable and
guarantees exactly a permutation of the slice sorted with respect to the
comparator; `insertionSort` over the non-strict `taskLe` realises that
guarantee. -/
def filterTasks (tasks : List Task) (opts : FilterOptions) (now : GoTime) : List Task :=
  List.insertionSort taskLe (tasks.filter (keepTask opts now))

/-- The arrangement C4 describes, read off the claim text: all pending
tasks before all completed ones; within the same completion status,
priority high before normal before low (via `priorityOrder`); within the
same priority, both-dated tasks ordered by their due-date strings, dated
tasks before undated ones. -/
def specArrangement (a b : Task) : Prop :=
  (a.Completed = false ∧ b.Completed = true) ∨
  (a.Completed = b.Completed ∧
    (priorityOrder b.Priority < priorityOrder a.Priority ∨
      (priorityOrder a.Priority = priorityOrder b.Priority ∧
        ((a.DueDate ≠ "" ∧ b.DueDate ≠ "" ∧ a.DueDate ≤ b.DueDate) ∨
         (a.DueDate ≠ "" ∧ b.DueDate = "") ∨
         (a.DueDate = "" ∧ b.DueDate = "")))))

/-! ## Store operation sequences (for the C8 invariant) -/

/-- The store invariant of C8: task IDs are pairwise distinct and all
strictly below `NextID`. -/
def StoreInv (store : TaskStore) : Prop :=
  (store.Tasks.map (·.ID)).Pairwise (· ≠ ·) ∧
  ∀ i ∈ store.Tasks.map (·.ID), i < store.NextID

/-- The operations of C8: adding a task, deleting by ID, and updating a
completion flag (`CompleteTask` and `updateTaskCompletion`). -/
inductive StoreOp where
  | add (desc due prio : String)
  | complete (id : Int)
  | del (id : Int)
  | setDone (id : Int) (done : Bool)

/-- Apply one operation to the store (keeping the store each Go function
leaves behind, whether or not it reports an error). -/
def applyOp (store : TaskStore) : StoreOp → TaskStore
  | .add desc due prio => (AddTask store desc due prio).2
  | .complete id => (CompleteTask store id).2
  | .del id => (deleteTaskByID store id).2
  | .setDone id done => (updateTaskCompletion store id done).2

/-- The store `LoadTasks` creates when no data file exists. -/
def emptyStore : TaskStore := ⟨[], 1⟩

/-! ## C1: the task health score -/

/-- C1: for every task collection with total task count `t > 0`, completed
count `c`, pending-overdue count `o`, and pending high-priority count `h`,
the task health score equals `(c*100)/t` (integer division) minus `20*o`
minus `10*h`, clamped to lie between 0 and 100; when `t = 0` the score
is 100. -/
theorem healthScore_spec (tasks : List Task) (now : GoTime) :
    (tasks.length ≠ 0 →
      taskHealthScoreOf tasks now =
        max 0 (min 100 ((((countCompleted tasks) * 100 / tasks.length : Nat) : Int)
          - 20 * countPendingOverdue tasks now - 10 * countPendingHigh tasks))) ∧
    taskHealthScoreOf ([] : List Task) now = 100 := by
  constructor
  · intro ht
    unfold taskHealthScoreOf calculateTaskHealthScore
    rw [if_neg ht]
    set x : Int := (((countCompleted tasks) * 100 / tasks.length : Nat) : Int)
      - 20 * countPendingOverdue tasks now - 10 * countPendingHigh tasks with hx
    simp only [show ((countCompleted tasks * 100) / tasks.length : Nat) = ((countCompleted tasks) * 100 / tasks.length : Nat) from rfl]
    have : (((countCompleted tasks) * 100 / tasks.length : Nat) : Int)
        - ((countPendingOverdue tasks now : Nat) : Int) * 20
        - ((countPendingHigh tasks : Nat) : Int) * 10 = x := by rw [hx]; ring
    rw [this]
    rcases lt_or_ge x 0 with h0 | h0
    · rw [if_pos h0]; omega
    · rw [if_neg (not_lt.mpr h0)]
      rcases lt_or_ge (100 : Int) x with h1 | h1
      · rw [if_pos h1]; omega
      · rw [if_neg (not_lt.mpr h1)]; omega
  · rfl

/-- Witness for C1 at a concrete two-task collection: one completed, one
pending-overdue high-priority task gives `max 0 (min 100 (50 - 20 - 10)) = 20`. -/
theorem healthScore_spec_witness :
    taskHealthScoreOf
      [⟨1, "a", "", "low", true⟩, ⟨2, "b", "2020-01-05", "high", false⟩]
      ⟨⟨2020, 1, 7⟩, 0⟩ = 20 := by
  rw [(healthScore_spec
    [⟨1, "a", "", "low", true⟩, ⟨2, "b", "2020-01-05", "high", false⟩]
    ⟨⟨2020, 1, 7⟩, 0⟩).1 (by decide)]
  decide

/-! ## C3: the overdue classifier of the list and mark views -/

/-- C3: for every task and reference time, `isOverdue` (and the identical
`isTaskOverdue` of the mark view) returns `true` iff the task is pending,
its due-date string is non-empty and parses in `YYYY-MM-DD` format, and
the due calendar day is strictly before the reference time's calendar
day; in particular a pending task due on the current day is not overdue. -/
theorem isOverdue_spec (t : Task) (now : GoTime) :
    (isOverdue t now = true ↔
      t.Completed = false ∧ t.DueDate ≠ "" ∧
        ∃ d, parseDateStr t.DueDate = some d ∧ dayNumber d < dayNumber now.date) ∧
    isTaskOverdue t now = isOverdue t now ∧
    (∀ d, parseDateStr t.DueDate = some d → d = now.date → isOverdue t now = false) := by
  refine ⟨?_, rfl, ?_⟩
  · rcases ho : t.Completed with _ | _
    · by_cases hd : t.DueDate = ""
      · simp [isOverdue, ho, hd]
      · rcases hp : parseDateStr t.DueDate with _ | d
        · simp [isOverdue, ho, hd, hp]
        · have he : isOverdue t now = decide (dateSec d < dateSec now.date) := by
            simp [isOverdue, ho, hd, hp]
          rw [he]
          constructor
          · intro h
            rw [decide_eq_true_eq] at h
            refine ⟨rfl, hd, d, rfl, ?_⟩
            simp only [dateSec] at h
            omega
          · rintro ⟨-, -, d', hd', hlt⟩
            injection hd' with hdd
            subst hdd
            simp only [decide_eq_true_eq, dateSec]
            omega
    · simp [isOverdue, ho]
  · intro d hd hde
    subst hde
    rcases ho : t.Completed with _ | _
    · by_cases hdd : t.DueDate = ""
      · simp [isOverdue, ho, hdd]
      · simp [isOverdue, ho, hdd, hd]
    · simp [isOverdue, ho]

/-- Witness for C3: a pending task due 2025-07-20, seen at reference time
2025-07-20 10:30, is not overdue. -/
theorem isOverdue_spec_witness :
    isOverdue ⟨5, "x", "2025-07-20", "normal", false⟩ ⟨⟨2025, 7, 20⟩, 37800⟩ = false :=
  (isOverdue_spec ⟨5, "x", "2025-07-20", "normal", false⟩ ⟨⟨2025, 7, 20⟩, 37800⟩).2.2
    ⟨2025, 7, 20⟩ (by decide) rfl

/-! ## C5: the due-soon classifier -/

/-- C5: for every task and reference time `now`, `isDueSoon` returns
`true` iff the task is pending, its due-date string parses in
`YYYY-MM-DD` format, and the parsed due date (midnight of the due day)
is neither before `now` nor after `now` plus 3 days; completed tasks and
tasks with an unparseable (in particular empty) due date are never
due-soon. -/
theorem isDueSoon_spec (t : Task) (now : GoTime) :
    (isDueSoon t now = true ↔
      t.Completed = false ∧
        ∃ d, parseDateStr t.DueDate = some d ∧
          ¬ dateSec d < nowSec now ∧ ¬ dateSec d > nowSec now + 3 * 86400) ∧
    (t.Completed = true → isDueSoon t now = false) ∧
    (parseDateStr t.DueDate = none → isDueSoon t now = false) := by
  refine ⟨?_, ?_, ?_⟩
  · rcases ho : t.Completed with _ | _
    · by_cases hd : t.DueDate = ""
      · simp [isDueSoon, ho, hd,
          show parseDateStr "" = (none : Option CivilDate) from rfl]
      · rcases hp : parseDateStr t.DueDate with _ | d
        · simp [isDueSoon, ho, hd, hp]
        · have he : isDueSoon t now
              = (!decide (dateSec d < nowSec now)
                 && !decide (dateSec d > nowSec now + 3 * 86400)) := by
            simp [isDueSoon, ho, hd, hp]
          rw [he]
          constructor
          · intro h
            rw [Bool.and_eq_true] at h
            refine ⟨rfl, d, rfl, ?_, ?_⟩
            · have h1 := h.1
              simpa using h1
            · have h2 := h.2
              simpa using h2
          · rintro ⟨-, d', hd', h1, h2⟩
            injection hd' with hdd
            subst hdd
            simp only [Bool.and_eq_true, Bool.not_eq_true', decide_eq_false_iff_not]
            omega
    · simp [isDueSoon, ho]
  · intro hc
    simp [isDueSoon, hc]
  · intro hp
    rcases ho : t.Completed with _ | _
    · by_cases hd : t.DueDate = ""
      · simp [isDueSoon, ho, hd]
      · simp [isDueSoon, ho, hd, hp]
    · simp [isDueSoon, ho]

/-- Witness for C5: a completed task is never due-soon. -/
theorem isDueSoon_spec_witness :
    isDueSoon ⟨3, "y", "2025-07-21", "high", true⟩ ⟨⟨2025, 7, 20⟩, 0⟩ = false :=
  (isDueSoon_spec ⟨3, "y", "2025-07-21", "high", true⟩ ⟨⟨2025, 7, 20⟩, 0⟩).2.1 rfl

/-! ## C6: AddTask atomicity and success shape -/

/-- Behaviour of `AddTask` on a validation failure (shared helper). -/
theorem addTask_fail (store : TaskStore) (desc due prio : String)
    (h : ValidateDate due = false ∨ ValidatePriority prio = false) :
    AddTask store desc due prio = (none, store) := by
  rcases h with h | h
  · simp [AddTask, h]
  · rcases hv : ValidateDate due with _ | _
    · simp [AddTask, hv]
    · simp [AddTask, hv, h]

/-- Behaviour of `AddTask` when both validations pass (shared helper). -/
theorem addTask_ok (store : TaskStore) (desc due prio : String)
    (h1 : ValidateDate due = true) (h2 : ValidatePriority prio = true) :
    AddTask store desc due prio =
      (some ⟨store.NextID, desc, due, lowerStr prio, false⟩,
       ⟨store.Tasks ++ [⟨store.NextID, desc, due, lowerStr prio, false⟩],
        store.NextID + 1⟩) := by
  simp [AddTask, h1, h2]

/-- C6: `AddTask` is atomic on error: if the due date fails date
validation or the priority fails priority validation it returns an error
and leaves the store's task list and `NextID` unchanged; otherwise it
appends exactly one task whose `ID` is the previous `NextID`, whose
`Priority` is the lower-cased input, whose `Completed` flag is `false`,
and increments `NextID` by exactly one. -/
theorem addTask_spec (store : TaskStore) (desc due prio : String) :
    ((ValidateDate due = false ∨ ValidatePriority prio = false) →
      AddTask store desc due prio = (none, store)) ∧
    (ValidateDate due = true → ValidatePriority prio = true →
      AddTask store desc due prio =
        (some ⟨store.NextID, desc, due, lowerStr prio, false⟩,
         ⟨store.Tasks ++ [⟨store.NextID, desc, due, lowerStr prio, false⟩],
          store.NextID + 1⟩)) :=
  ⟨addTask_fail store desc due prio, addTask_ok store desc due prio⟩

/-- Witness for C6 on the empty store: an invalid date is rejected without
touching the store, and a valid add with priority "HIGH" appends one task
with `ID = 1`, priority "high", and bumps `NextID` to 2. -/
theorem addTask_spec_witness :
    AddTask ⟨[], 1⟩ "a" "2025-13-01" "normal" = (none, ⟨[], 1⟩) ∧
    AddTask ⟨[], 1⟩ "a" "" "HIGH" =
      (some ⟨1, "a", "", "high", false⟩, ⟨[⟨1, "a", "", "high", false⟩], 2⟩) :=
  ⟨(addTask_spec ⟨[], 1⟩ "a" "2025-13-01" "normal").1 (Or.inl (by decide)),
   (addTask_spec ⟨[], 1⟩ "a" "" "HIGH").2 (by decide) (by decide)⟩

/-! ## C7: the due date is optional -/

/-- C7: `ValidateDate` accepts the empty string, so `AddTask` with an
empty due date and a valid priority succeeds and stores the task with an
empty `DueDate`; and a task whose `DueDate` is empty is never classified
overdue (by either overdue classifier) and never classified due-soon. -/
theorem emptyDueDate_spec :
    ValidateDate "" = true ∧
    (∀ (store : TaskStore) (desc prio : String), ValidatePriority prio = true →
      AddTask store desc "" prio =
        (some ⟨store.NextID, desc, "", lowerStr prio, false⟩,
         ⟨store.Tasks ++ [⟨store.NextID, desc, "", lowerStr prio, false⟩],
          store.NextID + 1⟩)) ∧
    (∀ (t : Task) (now : GoTime), t.DueDate = "" →
      isOverdue t now = false ∧ isTaskOverdue t now = false ∧
        isDueSoon t now = false) := by
  refine ⟨rfl, ?_, ?_⟩
  · intro store desc prio hp
    exact addTask_ok store desc "" prio rfl hp
  · intro t now hd
    refine ⟨?_, ?_, ?_⟩
    · simp [isOverdue, hd]
    · simp [isTaskOverdue, hd]
    · simp [isDueSoon, hd]

/-- Witness for C7: adding "buy milk" with no due date to the empty store
succeeds, and the stored task is neither overdue nor due-soon. -/
theorem emptyDueDate_spec_witness :
    AddTask ⟨[], 1⟩ "buy milk" "" "low" =
      (some ⟨1, "buy milk", "", "low", false⟩,
       ⟨[⟨1, "buy milk", "", "low", false⟩], 2⟩) ∧
    isOverdue ⟨1, "buy milk", "", "low", false⟩ ⟨⟨2025, 7, 20⟩, 0⟩ = false ∧
    isDueSoon ⟨1, "buy milk", "", "low", false⟩ ⟨⟨2025, 7, 20⟩, 0⟩ = false :=
  ⟨emptyDueDate_spec.2.1 ⟨[], 1⟩ "buy milk" "low" (by decide),
   (emptyDueDate_spec.2.2 ⟨1, "buy milk", "", "low", false⟩ ⟨⟨2025, 7, 20⟩, 0⟩ rfl).1,
   (emptyDueDate_spec.2.2 ⟨1, "buy milk", "", "low", false⟩ ⟨⟨2025, 7, 20⟩, 0⟩ rfl).2.2⟩

/-! ## C9: frame property of completion updates -/

/-- Helper: when no task carries the ID, `updateFirstById` reports failure
and rebuilds the list unchanged. -/
theorem updateFirstById_absent (id : Int) (b : Bool) :
    ∀ l : List Task, (∀ t ∈ l, t.ID ≠ id) → updateFirstById id b l = (false, l) := by
  intro l
  induction l with
  | nil => intro _; rfl
  | cons t rest ih =>
    intro h
    have ht : t.ID ≠ id := h t (List.mem_cons_self t rest)
    have hr := ih (fun x hx => h x (List.mem_cons_of_mem t hx))
    simp [updateFirstById, ht, hr]

/-- Helper: when the first task carrying the ID sits at index `j`,
`updateFirstById` sets exactly that entry's `Completed` flag. -/
theorem updateFirstById_found (id : Int) (b : Bool) :
    ∀ (l : List Task) (j : Nat) (hj : j < l.length),
      (l.get ⟨j, hj⟩).ID = id →
      (∀ k (hk : k < j), (l.get ⟨k, Nat.lt_trans hk hj⟩).ID ≠ id) →
      updateFirstById id b l =
        (true, l.set j { l.get ⟨j, hj⟩ with Completed := b }) := by
  intro l
  induction l with
  | nil => intro j hj; simp at hj
  | cons t rest ih =>
    intro j hj hid hbefore
    cases j with
    | zero =>
      simp only [List.get] at hid
      simp [updateFirstById, hid]
    | succ j =>
      have ht : t.ID ≠ id := by
        have h0 := hbefore 0 (Nat.succ_pos j)
        simpa using h0
      have hj' : j < rest.length := Nat.lt_of_succ_lt_succ hj
      have hid' : (rest.get ⟨j, hj'⟩).ID = id := by simpa using hid
      have hb' : ∀ k (hk : k < j), (rest.get ⟨k, Nat.lt_trans hk hj'⟩).ID ≠ id := by
        intro k hk
        have hkk := hbefore (k + 1) (Nat.succ_lt_succ hk)
        simpa using hkk
      have hr := ih j hj' hid' hb'
      simp [updateFirstById, ht, hr]

/-- Helper: the `CompleteTask` loop is the `updateTaskCompletion` loop with
target flag `true`. -/
theorem completeFirstById_eq (id : Int) :
    ∀ l : List Task, completeFirstById id l = updateFirstById id true l := by
  intro l
  induction l with
  | nil => rfl
  | cons t rest ih =>
    by_cases ht : t.ID = id <;> simp [completeFirstById, updateFirstById, ht, ih]

/-- C9: updating a task's completion status (`CompleteTask`, and
`updateTaskCompletion` with any target flag) for an ID present in the
store changes only the `Completed` field of the first task bearing that
ID — its other fields, every other task, the task order, and `NextID` are
unchanged; when no task has the ID, the function reports an error and
leaves the store entirely unchanged. -/
theorem updateCompletion_frame (store : TaskStore) (id : Int) (done : Bool) :
    ((∀ t ∈ store.Tasks, t.ID ≠ id) →
      updateTaskCompletion store id done = (false, store) ∧
      CompleteTask store id = (false, store)) ∧
    (∀ (j : Nat) (hj : j < store.Tasks.length),
      (store.Tasks.get ⟨j, hj⟩).ID = id →
      (∀ k (hk : k < j), (store.Tasks.get ⟨k, Nat.lt_trans hk hj⟩).ID ≠ id) →
      updateTaskCompletion store id done =
        (true, ⟨store.Tasks.set j { store.Tasks.get ⟨j, hj⟩ with Completed := done },
                store.NextID⟩)) ∧
    CompleteTask store id = updateTaskCompletion store id true := by
  refine ⟨?_, ?_, ?_⟩
  · intro h
    constructor
    · unfold updateTaskCompletion
      rw [updateFirstById_absent id done store.Tasks h]
    · unfold CompleteTask
      rw [completeFirstById_eq, updateFirstById_absent id true store.Tasks h]
  · intro j hj hid hb
    unfold updateTaskCompletion
    rw [updateFirstById_found id done store.Tasks j hj hid hb]
  · unfold CompleteTask updateTaskCompletion
    rw [completeFirstById_eq]

/-- Witness for C9: on a one-task store, updating an absent ID changes
nothing, and updating the present ID flips exactly that task's flag. -/
theorem updateCompletion_frame_witness :
    updateTaskCompletion ⟨[⟨1, "a", "", "low", false⟩], 2⟩ 7 true
      = (false, ⟨[⟨1, "a", "", "low", false⟩], 2⟩) ∧
    updateTaskCompletion ⟨[⟨1, "a", "", "low", false⟩], 2⟩ 1 true
      = (true, ⟨[⟨1, "a", "", "low", true⟩], 2⟩) :=
  ⟨((updateCompletion_frame ⟨[⟨1, "a", "", "low", false⟩], 2⟩ 7 true).1 (by decide)).1,
   by
    rw [(updateCompletion_frame ⟨[⟨1, "a", "", "low", false⟩], 2⟩ 1 true).2.1 0
      (by decide) rfl (fun k hk => absurd hk (Nat.not_lt_zero k))]
    decide⟩

/-! ## C8: the distinct-ID invariant -/

/-- Helper: `removeFirstById` returns a sublist of its input. -/
theorem removeFirstById_sublist (id : Int) :
    ∀ l : List Task, List.Sublist (removeFirstById id l).2 l := by
  intro l
  induction l with
  | nil => simp [removeFirstById]
  | cons t rest ih =>
    by_cases ht : t.ID = id
    · simp only [removeFirstById, if_pos ht]
      exact List.sublist_cons_self t rest
    · simp only [removeFirstById, if_neg ht]
      exact List.Sublist.cons₂ t ih

/-- Helper: updating completion flags leaves the ID sequence untouched. -/
theorem updateFirstById_map_id (id : Int) (b : Bool) :
    ∀ l : List Task, ((updateFirstById id b l).2).map (·.ID) = l.map (·.ID) := by
  intro l
  induction l with
  | nil => rfl
  | cons t rest ih =>
    by_cases ht : t.ID = id <;> simp [updateFirstById, ht, ih]

/-- Helper: every single operation preserves the invariant. -/
theorem storeInv_applyOp (store : TaskStore) (op : StoreOp)
    (h : StoreInv store) : StoreInv (applyOp store op) := by
  obtain ⟨hpw, hlt⟩ := h
  cases op with
  | add desc due prio =>
    show StoreInv (AddTask store desc due prio).2
    by_cases hd : ValidateDate due = true
    · by_cases hp : ValidatePriority prio = true
      · rw [addTask_ok store desc due prio hd hp]
        dsimp only
        constructor
        · simp only [List.map_append]
          refine List.pairwise_append.mpr ⟨hpw, by simp, ?_⟩
          intro a ha b hb
          simp only [List.map_cons, List.map_nil, List.mem_singleton] at hb
          subst hb
          exact ne_of_lt (hlt a ha)
        · intro i hi
          simp only [List.map_append, List.mem_append] at hi
          rcases hi with hi | hi
          · have := hlt i hi
            show i < store.NextID + 1
            omega
          · simp only [List.map_cons, List.map_nil, List.mem_singleton] at hi
            subst hi
            show store.NextID < store.NextID + 1
            omega
      · rw [addTask_fail store desc due prio (Or.inr (by simpa using hp))]
        exact ⟨hpw, hlt⟩
    · rw [addTask_fail store desc due prio (Or.inl (by simpa using hd))]
      exact ⟨hpw, hlt⟩
  | complete id =>
    show StoreInv (CompleteTask store id).2
    unfold CompleteTask
    rw [completeFirstById_eq]
    constructor
    · rw [updateFirstById_map_id]
      exact hpw
    · intro i hi
      rw [updateFirstById_map_id] at hi
      exact hlt i hi
  | del id =>
    show StoreInv (deleteTaskByID store id).2
    unfold deleteTaskByID
    have hsub := List.Sublist.map (·.ID) (removeFirstById_sublist id store.Tasks)
    constructor
    · exact List.Pairwise.sublist hsub hpw
    · intro i hi
      exact hlt i (List.Sublist.subset hsub hi)
  | setDone id done =>
    show StoreInv (updateTaskCompletion store id done).2
    unfold updateTaskCompletion
    constructor
    · rw [updateFirstById_map_id]
      exact hpw
    · intro i hi
      rw [updateFirstById_map_id] at hi
      exact hlt i hi

/-- C8: starting from the empty store (no tasks, `NextID = 1`), every
sequence of operations drawn from `AddTask`, deletion by ID, and
completion-flag updates preserves the invariant that all task IDs are
pairwise distinct and each is strictly less than `NextID`. -/
theorem storeInv_spec : ∀ ops : List StoreOp,
    StoreInv (List.foldl applyOp emptyStore ops) := by
  have hstep : ∀ (ops : List StoreOp) (s : TaskStore),
      StoreInv s → StoreInv (List.foldl applyOp s ops) := by
    intro ops
    induction ops with
    | nil => intro s hs; exact hs
    | cons op rest ih =>
      intro s hs
      exact ih (applyOp s op) (storeInv_applyOp s op hs)
  intro ops
  exact hstep ops emptyStore ⟨List.Pairwise.nil, by simp [emptyStore]⟩

/-! ## C2: what decides duplicate classification -/

/-- C2 counterexample: whether one task is reported as a duplicate of
another is *not* determined by the similarity score of their two
descriptions: the pending pairs ("buy  milk", "buy milk") and
("buy milk", "milk buy") have the same similarity score 3/5, yet the
first pair is reported as a duplicate and the second is not. -/
theorem duplicates_not_score_determined :
    ¬ ∃ f : Rat → Bool, ∀ a b : Task, a.Completed = false → b.Completed = false →
        (findDuplicateTasks [a, b] ≠ [] ↔
          f (calculateSimilarityScore a.Description b.Description) = true) := by
  rintro ⟨f, hf⟩
  have h1 := hf ⟨1, "buy  milk", "", "normal", false⟩
    ⟨2, "buy milk", "", "normal", false⟩ rfl rfl
  have h2 := hf ⟨1, "buy milk", "", "normal", false⟩
    ⟨2, "milk buy", "", "normal", false⟩ rfl rfl
  have e1 : calculateSimilarityScore "buy  milk" "buy milk"
      = ((2 : Nat) : Rat) / ((2 : Nat) : Rat) * (3 / 5) := by
    simp only [calculateSimilarityScore]
    rw [if_neg (by decide : ¬ (lowerChars "buy  milk".data = lowerChars "buy milk".data))]
    rw [if_neg (by decide :
      ¬ (containsChars (lowerChars "buy  milk".data) (lowerChars "buy milk".data) = true))]
    rw [show List.countP
        (fun pw => (fieldsChars (lowerChars "buy  milk".data)).any
          fun tw => startsWithChars tw pw || containsChars tw pw)
        (fieldsChars (lowerChars "buy milk".data)) = 2 from by decide]
    rw [show (fieldsChars (lowerChars "buy milk".data)).length = 2 from by decide]
    rw [if_pos (by norm_num : (0 : Nat) < 2)]
  have e2 : calculateSimilarityScore "buy milk" "milk buy"
      = ((2 : Nat) : Rat) / ((2 : Nat) : Rat) * (3 / 5) := by
    simp only [calculateSimilarityScore]
    rw [if_neg (by decide : ¬ (lowerChars "buy milk".data = lowerChars "milk buy".data))]
    rw [if_neg (by decide :
      ¬ (containsChars (lowerChars "buy milk".data) (lowerChars "milk buy".data) = true))]
    rw [show List.countP
        (fun pw => (fieldsChars (lowerChars "buy milk".data)).any
          fun tw => startsWithChars tw pw || containsChars tw pw)
        (fieldsChars (lowerChars "milk buy".data)) = 2 from by decide]
    rw [show (fieldsChars (lowerChars "milk buy".data)).length = 2 from by decide]
    rw [if_pos (by norm_num : (0 : Nat) < 2)]
  have d1 : findDuplicateTasks
      [⟨1, "buy  milk", "", "normal", false⟩, ⟨2, "buy milk", "", "normal", false⟩]
      ≠ ([] : List Task) := by decide
  have d2 : findDuplicateTasks
      [⟨1, "buy milk", "", "normal", false⟩, ⟨2, "milk buy", "", "normal", false⟩]
      = ([] : List Task) := by decide
  rw [e1] at h1
  rw [e2] at h2
  exact (h2.mpr (h1.mp d1)) d2

/-- C2 amended: among pending tasks, duplicate classification is decided
by exact equality of the *normalized descriptions* (lower-cased, trimmed,
double spaces collapsed), not by the similarity score: a two-task
collection of pending tasks reports a duplicate exactly when the two
normalized descriptions coincide. -/
theorem findDuplicates_amended (a b : Task)
    (ha : a.Completed = false) (hb : b.Completed = false) :
    findDuplicateTasks [a, b] ≠ [] ↔
      normalizeDesc a.Description = normalizeDesc b.Description := by
  by_cases h : normalizeDesc a.Description = normalizeDesc b.Description
  · simp only [findDuplicateTasks, findDuplicateTasksAux, lookupSeen, setSeen,
      ha, hb, h, if_pos, if_neg, Bool.false_eq_true, if_false]
    by_cases hk : shouldKeepExisting a b <;> simp [hk, h]
  · simp only [findDuplicateTasks, findDuplicateTasksAux, lookupSeen, setSeen,
      ha, hb, Bool.false_eq_true, if_false]
    simp [h]

/-- Witness for the amended C2: "Buy  milk" (double space) and "buy milk"
normalize identically, so the pair is reported as a duplicate. -/
theorem findDuplicates_amended_witness :
    findDuplicateTasks
      [⟨1, "Buy  milk", "", "normal", false⟩, ⟨2, "buy milk", "", "normal", false⟩]
      ≠ [] :=
  (findDuplicates_amended ⟨1, "Buy  milk", "", "normal", false⟩
    ⟨2, "buy milk", "", "normal", false⟩ rfl rfl).mpr (by decide)

/-! ## C10: agreement of the three overdue tests -/

/-- C10 counterexample: the three overdue tests do *not* agree.  A pending
task due 2025-07-20, examined at 2025-07-20 01:00, is selected by the
delete view's `getOverdueTasks` (which compares the due midnight against
the current instant) but is not overdue for `isOverdue`/`isTaskOverdue`
(which compare truncated calendar days). -/
theorem overdue_tests_disagree :
    getOverdueTasks [⟨1, "x", "2025-07-20", "normal", false⟩] ⟨⟨2025, 7, 20⟩, 3600⟩
      = [⟨1, "x", "2025-07-20", "normal", false⟩] ∧
    isOverdue ⟨1, "x", "2025-07-20", "normal", false⟩ ⟨⟨2025, 7, 20⟩, 3600⟩ = false ∧
    isTaskOverdue ⟨1, "x", "2025-07-20", "normal", false⟩ ⟨⟨2025, 7, 20⟩, 3600⟩ = false :=
  ⟨by decide, by decide, by decide⟩

/-- C10 amended: `isOverdue` and `isTaskOverdue` agree on every task and
reference time; the membership test of `getOverdueTasks` agrees with them
except that it additionally classifies as overdue a pending task whose
parsed due day equals the reference day once the reference time is
strictly past midnight. -/
theorem overdue_agreement_amended (t : Task) (now : GoTime)
    (hofs0 : 0 ≤ now.ofs) (hofs1 : now.ofs < 86400) :
    isTaskOverdue t now = isOverdue t now ∧
    (overdueInstant t now = true ↔
      (isOverdue t now = true ∨
        (t.Completed = false ∧ ∃ d, parseDateStr t.DueDate = some d ∧
          dayNumber d = dayNumber now.date ∧ 0 < now.ofs))) := by
  refine ⟨rfl, ?_⟩
  rcases ho : t.Completed with _ | _
  · by_cases hd : t.DueDate = ""
    · have hpn : parseDateStr t.DueDate = none := by rw [hd]; rfl
      simp [overdueInstant, isOverdue, ho, hd, hpn,
        show parseDateStr "" = (none : Option CivilDate) from rfl]
    · rcases hp : parseDateStr t.DueDate with _ | d
      · simp [overdueInstant, isOverdue, ho, hd, hp]
      · have hei : overdueInstant t now = decide (dateSec d < nowSec now) := by
          simp [overdueInstant, ho, hd, hp]
        have heo : isOverdue t now = decide (dateSec d < dateSec now.date) := by
          simp [isOverdue, ho, hd, hp]
        have harith : dateSec d < nowSec now ↔
            (dateSec d < dateSec now.date ∨
              (dayNumber d = dayNumber now.date ∧ 0 < now.ofs)) := by
          simp only [dateSec, nowSec]
          omega
        rw [hei, heo]
        simp only [decide_eq_true_eq, harith, hp, Option.some.injEq]
        constructor
        · rintro (h | h)
          · left
            exact h
          · right
            exact ⟨trivial, d, rfl, h.1, h.2⟩
        · rintro (h | ⟨-, d', hd', he, hofs⟩)
          · left
            exact h
          · subst hd'
            right
            exact ⟨he, hofs⟩
  · simp [overdueInstant, isOverdue, ho]

/-- Witness for the amended C10: the `getOverdueTasks` membership test
fires on a task due on the current day once the clock is past midnight. -/
theorem overdue_agreement_amended_witness :
    overdueInstant ⟨1, "x", "2025-07-20", "normal", false⟩ ⟨⟨2025, 7, 20⟩, 3600⟩ = true :=
  (overdue_agreement_amended ⟨1, "x", "2025-07-20", "normal", false⟩
      ⟨⟨2025, 7, 20⟩, 3600⟩ (by decide) (by decide)).2.mpr
    (Or.inr ⟨rfl, ⟨2025, 7, 20⟩, by decide, rfl, by decide⟩)

/-! ## C4: filterTasks returns the filtered tasks in the fixed arrangement -/

/-- Helper: the priority ranks are bounded by 3. -/
theorem priorityOrder_le_three (p : String) : priorityOrder p ≤ 3 := by
  unfold priorityOrder
  split_ifs <;> omega

/-- Helper: `taskLess` is the strict lexicographic order on `taskKey`. -/
theorem taskLess_iff (a b : Task) : taskLess a b = true ↔ taskKey a < taskKey b := by
  have hpa := priorityOrder_le_three a.Priority
  have hpb := priorityOrder_le_three b.Priority
  unfold taskLess taskKey
  simp only [Prod.Lex.lt_iff]
  rcases hca : a.Completed with _ | _ <;> rcases hcb : b.Completed with _ | _
  · simp only [ne_eq, not_true_eq_false, if_false, if_neg, not_false_eq_true, reduceIte]
    by_cases hp : priorityOrder a.Priority = priorityOrder b.Priority
    · have h3 : (3 - priorityOrder a.Priority : Nat) = 3 - priorityOrder b.Priority := by
        omega
      rw [if_neg (by omega : ¬ priorityOrder a.Priority ≠ priorityOrder b.Priority)]
      by_cases hda : a.DueDate = ""
      · by_cases hdb : b.DueDate = ""
        · simp [hda, hdb, h3]
        · simp [hda, hdb, h3]
      · by_cases hdb : b.DueDate = ""
        · simp [hda, hdb, h3]
        · simp [hda, hdb, h3]
    · rw [if_pos (by omega : priorityOrder a.Priority ≠ priorityOrder b.Priority)]
      have h3 : ¬ ((3 - priorityOrder a.Priority : Nat) = 3 - priorityOrder b.Priority) := by
        omega
      simp [h3]
      omega
  · simp
  · simp
  · simp only [ne_eq, not_true_eq_false, if_false, if_neg, not_false_eq_true, reduceIte]
    by_cases hp : priorityOrder a.Priority = priorityOrder b.Priority
    · have h3 : (3 - priorityOrder a.Priority : Nat) = 3 - priorityOrder b.Priority := by
        omega
      rw [if_neg (by omega : ¬ priorityOrder a.Priority ≠ priorityOrder b.Priority)]
      by_cases hda : a.DueDate = ""
      · by_cases hdb : b.DueDate = ""
        · simp [hda, hdb, h3]
        · simp [hda, hdb, h3]
      · by_cases hdb : b.DueDate = ""
        · simp [hda, hdb, h3]
        · simp [hda, hdb, h3]
    · rw [if_pos (by omega : priorityOrder a.Priority ≠ priorityOrder b.Priority)]
      have h3 : ¬ ((3 - priorityOrder a.Priority : Nat) = 3 - priorityOrder b.Priority) := by
        omega
      simp [h3]
      omega

/-- Helper: `taskLe` is the non-strict lexicographic order on `taskKey`. -/
theorem taskLe_iff (a b : Task) : taskLe a b ↔ taskKey a ≤ taskKey b := by
  unfold taskLe
  rw [show (taskLess b a = false) ↔ ¬ (taskLess b a = true) from by simp]
  rw [taskLess_iff]
  exact not_lt

/-- Helper: `taskLe` is total. -/
theorem taskLe_total (a b : Task) : taskLe a b ∨ taskLe b a := by
  rw [taskLe_iff, taskLe_iff]
  exact le_total (taskKey a) (taskKey b)

/-- Helper: `taskLe` is transitive. -/
theorem taskLe_trans (a b c : Task) (h1 : taskLe a b) (h2 : taskLe b c) : taskLe a c := by
  rw [taskLe_iff] at h1 h2 ⊢
  exact le_trans h1 h2

/-- Helper: the claim's arrangement coincides with `taskLe`. -/
theorem specArrangement_iff (a b : Task) : specArrangement a b ↔ taskLe a b := by
  rw [taskLe_iff]
  have hpa := priorityOrder_le_three a.Priority
  have hpb := priorityOrder_le_three b.Priority
  unfold specArrangement taskKey
  simp only [Prod.Lex.le_iff, Prod.Lex.lt_iff]
  rcases hca : a.Completed with _ | _ <;> rcases hcb : b.Completed with _ | _
  · simp only [hca, hcb, if_false, reduceIte]
    by_cases hp : priorityOrder a.Priority = priorityOrder b.Priority
    · have h3 : (3 - priorityOrder a.Priority : Nat) = 3 - priorityOrder b.Priority := by
        omega
      by_cases hda : a.DueDate = ""
      · by_cases hdb : b.DueDate = ""
        · simp [hda, hdb, h3, hp]
        · simp [hda, hdb, h3, hp]
      · by_cases hdb : b.DueDate = ""
        · simp [hda, hdb, h3, hp]
        · simp [hda, hdb, h3, hp]
    · have h3 : ¬ ((3 - priorityOrder a.Priority : Nat) = 3 - priorityOrder b.Priority) := by
        omega
      simp [h3, hp]
      omega
  · simp
  · simp
  · simp only [hca, hcb, if_false, reduceIte]
    by_cases hp : priorityOrder a.Priority = priorityOrder b.Priority
    · have h3 : (3 - priorityOrder a.Priority : Nat) = 3 - priorityOrder b.Priority := by
        omega
      by_cases hda : a.DueDate = ""
      · by_cases hdb : b.DueDate = ""
        · simp [hda, hdb, h3, hp]
        · simp [hda, hdb, h3, hp]
      · by_cases hdb : b.DueDate = ""
        · simp [hda, hdb, h3, hp]
        · simp [hda, hdb, h3, hp]
    · have h3 : ¬ ((3 - priorityOrder a.Priority : Nat) = 3 - priorityOrder b.Priority) := by
        omega
      simp [h3, hp]
      omega

/-- C4: `filterTasks` returns exactly the tasks of its input that satisfy
the requested filters (a permutation of the `keepTask`-filtered input),
arranged in the fixed ordering `specArrangement`: all pending tasks before
all completed tasks; within the same completion status, priority high
before normal before low; within the same priority, tasks with earlier
due-date strings before later ones, and dated tasks before undated
ones. -/
theorem filterTasks_spec (tasks : List Task) (opts : FilterOptions) (now : GoTime) :
    List.Perm (filterTasks tasks opts now) (tasks.filter (keepTask opts now)) ∧
    List.Pairwise specArrangement (filterTasks tasks opts now) := by
  constructor
  · exact List.perm_insertionSort taskLe (tasks.filter (keepTask opts now))
  · haveI : IsTotal Task taskLe := ⟨taskLe_total⟩
    haveI : IsTrans Task taskLe := ⟨taskLe_trans⟩
    have hs := List.sorted_insertionSort taskLe (tasks.filter (keepTask opts now))
    exact List.Pairwise.imp (fun hab => (specArrangement_iff _ _).mpr hab) hs

end Todo
